import Mathlib

/-!
Verification development for the WHALER transaction-report pipeline
(`src/app.py`).  The core pipeline (lines 239 to 289 of the source) is
embedded shallowly: pandas cells become the `Cell` type, money values are
modelled as exact rationals, the data frame becomes a `Table` of rows of
cells, and each helper of the source (`money_to_float`, `extract_user`,
`classify_type`, `make_dedupe_key`, the required-columns check, the
date-parse-and-drop step, `drop_duplicates`, the groupby/sort ranking and
the KPI computations) becomes an executable Lean definition with the same
name where possible.  String operations are implemented over character
lists so that every definition evaluates by kernel reduction.
-/

namespace Whaler

/-- A pandas cell: a string, a numeric value (floats are modelled as exact
rationals), or a missing value (NaN). -/
inductive Cell
| str (s : String)
| num (q : ℚ)
| na
deriving DecidableEq, Repr

/-- The characters Python `str.strip()` removes: space, tab, newline,
carriage return, vertical tab, form feed. -/
def isPySpace (c : Char) : Bool :=
  c = ' ' || c = '\t' || c = '\n' || c = '\r' || c = '\x0b' || c = '\x0c'

/-- Strip leading and trailing Python whitespace from a character list. -/
def stripList (l : List Char) : List Char :=
  ((l.dropWhile isPySpace).reverse.dropWhile isPySpace).reverse

/-- Python `s.strip()`. -/
def pyStrip (s : String) : String :=
  String.mk (stripList s.toList)

/-- Numeric value of a digit list (most significant first). -/
def digitsToNat (l : List Char) : ℕ :=
  l.foldl (fun a c => a * 10 + (c.toNat - 48)) 0

/-- Unsigned part of a Python float literal: digits with an optional single
decimal point and at least one digit overall.  This models the finite
decimal literals accepted by Python `float`; exponent forms and the
special words inf/nan are not modelled (no input of the program or of the
claims uses them). -/
def pyFloatCore (l : List Char) : Option ℚ :=
  match l.splitOn '.' with
  | [ds] =>
      if ds ≠ [] && ds.all Char.isDigit then some (digitsToNat ds) else none
  | [as, bs] =>
      if (as ≠ [] || bs ≠ []) && as.all Char.isDigit && bs.all Char.isDigit then
        some ((digitsToNat as : ℚ) + (digitsToNat bs : ℚ) / (10 ^ bs.length))
      else none
  | _ => none

/-- Python `float` on a character list: tolerate surrounding whitespace
and an optional sign, then parse a decimal literal; `none` models
`ValueError`. -/
def pyFloatOf (l : List Char) : Option ℚ :=
  match stripList l with
  | '-' :: r => (pyFloatCore r).map (fun q => -q)
  | '+' :: r => pyFloatCore r
  | r => pyFloatCore r

/-- Digits of a natural number, most significant first. -/
def natDigits (n : ℕ) : List Char :=
  (Nat.toDigits 10 n)

/-- Decimal rendering of an integer. -/
def intRender (i : ℤ) : String :=
  (if i < 0 then "-" else "") ++ String.mk (natDigits i.natAbs)

/-- Rendering of a numeric cell by Python `str`.  Integral floats render
as in Python (for example `35.0`); the exact shortest-repr algorithm for
non-integral floats is abstracted by an exact fraction rendering — no
claim depends on the rendering of a non-integral numeric cell. -/
def numRender (q : ℚ) : String :=
  if q.den = 1 then intRender q.num ++ ".0"
  else intRender q.num ++ " div " ++ intRender (q.den : ℤ)

/-- Python `str(x)` on a cell, as used by `pd.Series.astype(str)` and by
`classify_type`; `str(nan)` is the string nan. -/
def cellAstype : Cell → String
| .str s => s
| .num q => numRender q
| .na => "nan"

/-- `pd.isna`: true exactly for the missing value. -/
def cellIsNa : Cell → Bool
| .na => true
| _ => false

/-- Source lines 124 to 131: `money_to_float`.  NaN gives `0.0`; otherwise
the cell is rendered with `str`, stripped, every dollar sign and comma is
removed (the two single-character `replace` calls of the source amount to
filtering those characters out), and the result is parsed with `float`,
any `ValueError` giving `0.0`.  A numeric cell round-trips through `str`
exactly, hence the direct `q` in that branch. -/
def money_to_float (c : Cell) : ℚ :=
  match c with
  | .na => 0
  | .num q => q
  | .str s =>
      let t := (stripList s.toList).filter (fun c => c ≠ '$' && c ≠ ',')
      match pyFloatOf t with
      | some q => q
      | none => 0

/-- Source lines 136 to 139: `extract_user`.  Non-strings and blank
strings give Unknown; otherwise strip, split on the single space
character, and take the first piece. -/
def extract_user (c : Cell) : String :=
  match c with
  | .str s =>
      if stripList s.toList = [] then "Unknown"
      else String.mk (((stripList s.toList).splitOn ' ').headD [])
  | _ => "Unknown"

/-- Substring test on character lists (Python `in` on strings). -/
def subList (sub : List Char) : List Char → Bool
| [] => sub.isEmpty
| c :: rest => sub.isPrefixOf (c :: rest) || subList sub rest

/-- Python substring containment `sub in hay`. -/
def strContains (hay sub : String) : Bool :=
  subList sub.toList hay.toList

/-- ASCII lowercasing of one character (Python `str.lower`; the
descriptions and keywords of the program are ASCII). -/
def charLower (c : Char) : Char :=
  if 65 ≤ c.toNat && c.toNat ≤ 90 then Char.ofNat (c.toNat + 32) else c

/-- Python `s.lower()`. -/
def pyLower (s : String) : String :=
  String.mk (s.toList.map charLower)

/-- Source lines 141 to 149: `classify_type`.  The cell is coerced with
`str`, lowercased, and matched against keyword groups in a fixed order:
Video first, then Gifts, then Chat, else Other. -/
def classify_type (c : Cell) : String :=
  let s := pyLower (cellAstype c)
  if strContains s "video" || strContains s "facetime" then "Video"
  else if strContains s "gift" || strContains s "rose" then "Gifts"
  else if strContains s "chat" || strContains s "message" || strContains s "text" then "Chat"
  else "Other"

/-- A parsed timestamp, as produced by `pd.to_datetime`. -/
structure PDate where
  year : ℕ
  month : ℕ
  day : ℕ
  hour : ℕ
  minute : ℕ
  second : ℕ
deriving DecidableEq, Repr

/-- Gregorian leap year. -/
def isLeap (y : ℕ) : Bool :=
  (y % 4 = 0 && y % 100 ≠ 0) || y % 400 = 0

/-- Days in a month. -/
def daysInMonth (y m : ℕ) : ℕ :=
  if m = 2 then (if isLeap y then 29 else 28)
  else if m = 4 || m = 6 || m = 9 || m = 11 then 30
  else 31

/-- A run of digits read as a number, `none` when empty or non-numeric. -/
def readNat (l : List Char) : Option ℕ :=
  if l ≠ [] && l.all Char.isDigit then some (digitsToNat l) else none

/-- Parse the `YYYY-MM-DD` date part, validating month and day ranges as
`pd.to_datetime` does. -/
def parseYmd (l : List Char) : Option (ℕ × ℕ × ℕ) :=
  match l.splitOn '-' with
  | [ys, ms, ds] =>
      match readNat ys, readNat ms, readNat ds with
      | some y, some m, some d =>
          if ys.length = 4 && 1 ≤ m && m ≤ 12 && 1 ≤ d && d ≤ daysInMonth y m then
            some (y, m, d)
          else none
      | _, _, _ => none
  | _ => none

/-- Parse the `HH:MM:SS` time part. -/
def parseHms (l : List Char) : Option (ℕ × ℕ × ℕ) :=
  match l.splitOn ':' with
  | [hs, ms, ss] =>
      match readNat hs, readNat ms, readNat ss with
      | some h, some mi, some s =>
          if h < 24 && mi < 60 && s < 60 then some (h, mi, s) else none
      | _, _, _ => none
  | _ => none

/-- Source line 249: `pd.to_datetime(df["Date"], errors="coerce")` on one
cell; `none` models NaT.  The ISO forms `YYYY-MM-DD` and
`YYYY-MM-DD HH:MM:SS` accepted by the library are modelled; the library
would additionally interpret numeric cells as epoch offsets, which is not
modelled — no input of the claims carries a numeric date cell. -/
def toDatetime (c : Cell) : Option PDate :=
  match c with
  | .str s =>
      match (stripList s.toList).splitOn ' ' with
      | [d] => (parseYmd d).map (fun p => ⟨p.1, p.2.1, p.2.2, 0, 0, 0⟩)
      | [d, t] =>
          match parseYmd d, parseHms t with
          | some p, some q => some ⟨p.1, p.2.1, p.2.2, q.1, q.2.1, q.2.2⟩
          | _, _ => none
      | _ => none
  | _ => none

/-- The input data frame: a header row of column names and rows of cells.
A row shorter than the header reads as missing values. -/
structure Table where
  cols : List String
  rows : List (List Cell)
deriving DecidableEq, Repr

/-- Position of a column in the header, first occurrence. -/
def colIdx (t : Table) (c : String) : Option ℕ :=
  List.indexOf? c t.cols

/-- The cell of a row at a column position; missing reads as NaN. -/
def cellAt (r : List Cell) : Option ℕ → Cell
| some j => r.getD j Cell.na
| none => Cell.na

/-- One surviving row of the normalized ledger, with the raw cells kept
(the dedupe key of the source reads the raw `Date`, `Description`,
`Credits` and `Debits` columns, not the derived ones) together with the
derived columns `amount`, `user`, `type` and the parsed timestamp. -/
structure Entry where
  dateRaw : Cell
  descr : Cell
  creditsRaw : Cell
  debitsRaw : Option Cell
  dt : PDate
  amount : ℚ
  user : String
  cat : String
deriving DecidableEq, Repr

/-- Source lines 240 to 243: the required-columns check.  The source
demands that the exact names Date, Description and Credits all appear. -/
def requiredPresent (t : Table) : Bool :=
  t.cols.contains "Date" && t.cols.contains "Description" && t.cols.contains "Credits"

/-- Source lines 245 to 251 applied to one row: derive `amount`, `user`
and `type`, parse the date, and drop the row (`none`) when the date does
not parse.  `debitsRaw` is `none` when the table has no Debits column. -/
def rowEntry (t : Table) (r : List Cell) : Option Entry :=
  let dc := cellAt r (colIdx t "Date")
  let de := cellAt r (colIdx t "Description")
  let cr := cellAt r (colIdx t "Credits")
  let db := (colIdx t "Debits").map (fun j => r.getD j Cell.na)
  match toDatetime dc with
  | none => none
  | some d =>
      some { dateRaw := dc, descr := de, creditsRaw := cr, debitsRaw := db,
             dt := d, amount := money_to_float cr,
             user := extract_user de, cat := classify_type de }

/-- The rows that fail the date parse and are dropped by line 250. -/
inductive SchemaError
| missingColumns
deriving DecidableEq, Repr

/-- Source lines 239 to 251: the schema gate and the row-wise
normalization.  The run aborts (`st.error` plus `st.stop`) exactly when a
required column is missing; otherwise every row whose date parses becomes
an entry, in input order. -/
def normalize (t : Table) : Except SchemaError (List Entry) :=
  if requiredPresent t then .ok (t.rows.filterMap (rowEntry t))
  else .error .missingColumns

/-- Source lines 151 to 158: `make_dedupe_key` for one row — the raw
`Date`, `Description` and `Credits` cells rendered with `astype(str)` and
the raw `Debits` cell, or the empty string when that column is absent,
joined by the two-bar separator. -/
def dedupeKeyOf (e : Entry) : String :=
  cellAstype e.dateRaw ++ "||" ++ cellAstype e.descr ++ "||" ++
    cellAstype e.creditsRaw ++ "||" ++
    (match e.debitsRaw with
     | some c => cellAstype c
     | none => "")

/-- `drop_duplicates` with an accumulator of already-seen keys. -/
def dropDupsFrom (seen : List String) : List Entry → List Entry
| [] => []
| e :: es =>
    if dedupeKeyOf e ∈ seen then dropDupsFrom seen es
    else e :: dropDupsFrom (dedupeKeyOf e :: seen) es

/-- Source line 256: `df.drop_duplicates("dedupe_key")` — keep the first
row for each key value. -/
def drop_duplicates (l : List Entry) : List Entry :=
  dropDupsFrom [] l

/-- The distinct users of the ledger (as a set; the order is irrelevant
because `groupby` sorts its keys). -/
def usersOf (l : List Entry) : List String :=
  (l.map Entry.user).dedup

/-- Strict code-point lexicographic comparison of character lists — the
order Python uses on strings. -/
def strLtList : List Char → List Char → Bool
| [], [] => false
| [], _ :: _ => true
| _ :: _, [] => false
| a :: as, b :: bs =>
    if a.toNat < b.toNat then true
    else if b.toNat < a.toNat then false
    else strLtList as bs

/-- Non-strict code-point order on strings. -/
def strLeb (a b : String) : Bool :=
  !(strLtList b.toList a.toList)

/-- Source line 262, first half: `df.groupby("user")["amount"].sum()` —
group keys in ascending (code-point lexicographic) order, each with the
sum of the amounts of its group. -/
def groupTotals (l : List Entry) : List (String × ℚ) :=
  (List.insertionSort (fun a b => strLeb a b = true) (usersOf l)).map
    (fun u => (u, ((l.filter (fun e => e.user = u)).map Entry.amount).sum))

/-- Source line 262, second half: `.sort_values(ascending=False)`.
pandas argsorts ascending and reverses the permutation, so the descending
order reverses tied elements; on the small arrays considered here the
argsort is stable (insertion sort), which the stable `insertionSort`
models, and the reversal is explicit. -/
def whales (l : List Entry) : List (String × ℚ) :=
  (List.insertionSort (fun a b : String × ℚ => a.2 ≤ b.2) (groupTotals l)).reverse

/-- Source line 261: the global total over the deduplicated ledger. -/
def totalOf (l : List Entry) : ℚ :=
  (l.map Entry.amount).sum

/-- Source line 264: `whales.head(3)`. -/
def top3 (l : List Entry) : List (String × ℚ) :=
  (whales l).take 3

/-- Source line 263: `whales.head(10)`. -/
def top10 (l : List Entry) : List (String × ℚ) :=
  (whales l).take 10

/-- Source line 312: `enumerate(top10.items(), start=1)` — the 1-based
rank attached to each ranked payer. -/
def rankedPayers (l : List Entry) : List (ℕ × (String × ℚ)) :=
  (top10 l).enum.map (fun p => (p.1 + 1, p.2))

/-- Source line 289, the value actually displayed for the Top 3 Share
KPI: `top3.sum() / total * 100` with no zero guard.  Dividing by a zero
total produces a non-finite IEEE value (nan or an infinity), modelled by
`none`; no exception is raised. -/
def sharePct (l : List Entry) : Option ℚ :=
  if totalOf l = 0 then none
  else some (((top3 l).map Prod.snd).sum / totalOf l * 100)

/-- Source line 288, the guarded KPI value `k4_value`: the same quotient
when the total is positive and the top-3 slice is nonempty, otherwise
the literal zero.  The source computes this value and then never uses
it — line 289 renders the unguarded quotient instead. -/
def k4_value (l : List Entry) : Option ℚ :=
  if 0 < totalOf l ∧ (top3 l).length ≠ 0 then
    some (((top3 l).map Prod.snd).sum / totalOf l * 100)
  else some 0

/-- Normalization followed by deduplication (source lines 239 to 256). -/
def pipeline (t : Table) : Except SchemaError (List Entry) :=
  (normalize t).map drop_duplicates

/-- The deduplicated ledger of a table, empty when the schema gate
fails. -/
def pipelineEntries (t : Table) : List Entry :=
  (pipeline t).toOption.getD []

/-! ### Definitions written from the words of the spec and of the claims,
for comparison with the definitions above, which come from the source. -/

/-- Two-digit zero-padded rendering. -/
def pad2 (n : ℕ) : String :=
  if n < 10 then "0" ++ String.mk (natDigits n) else String.mk (natDigits n)

/-- Four-digit zero-padded rendering. -/
def pad4 (n : ℕ) : String :=
  if n < 10 then "000" ++ String.mk (natDigits n)
  else if n < 100 then "00" ++ String.mk (natDigits n)
  else if n < 1000 then "0" ++ String.mk (natDigits n)
  else String.mk (natDigits n)

/-- The fixed timestamp format named by the spec (YYYY-MM-DD HH:MM:SS). -/
def fmtTimestamp (d : PDate) : String :=
  pad4 d.year ++ "-" ++ pad2 d.month ++ "-" ++ pad2 d.day ++ " " ++
    pad2 d.hour ++ ":" ++ pad2 d.minute ++ ":" ++ pad2 d.second

/-- A money value rounded (half up) to whole cents, computed with integer
arithmetic: the floor of `q * 100 + 1 / 2` is `(200 num + den) fdiv
(2 den)`. -/
def round2cents (q : ℚ) : ℤ :=
  Int.fdiv (200 * q.num + q.den) (2 * q.den)

/-- A money value rendered with exactly two decimal places, after
rounding to cents. -/
def fmt2 (q : ℚ) : String :=
  let c := round2cents q
  (if c < 0 then "-" else "") ++
    String.mk (natDigits (c.natAbs / 100)) ++ "." ++ pad2 (c.natAbs % 100)

/-- The dedupe key as claim C5 and the spec describe it: the date as a
fixed-format timestamp string, the description, the credits rounded to
two decimal places and the debits rounded to two decimal places (a
missing Debits column reads as money zero, following the all-zero
default of the spec). -/
def specKeyClaim (e : Entry) : String :=
  fmtTimestamp e.dt ++ "||" ++ cellAstype e.descr ++ "||" ++
    fmt2 (money_to_float e.creditsRaw) ++ "||" ++
    fmt2 (money_to_float (e.debitsRaw.getD Cell.na))

/-- The dedupe key as amended: the raw `Date` cell rendered with `str`,
the description, the raw `Credits` cell rendered with `str`, and the raw
`Debits` cell rendered with `str` (the empty string when that column is
absent), joined by the two-bar separator; no timestamp formatting and no
rounding take part. -/
def specKeyAmended (e : Entry) : String :=
  cellAstype e.dateRaw ++ "||" ++ cellAstype e.descr ++ "||" ++
    cellAstype e.creditsRaw ++ "||" ++
    (match e.debitsRaw with
     | some c => cellAstype c
     | none => "")

/-- Python `s.split()` with no argument: split on whitespace runs,
discarding empty pieces — the whitespace-delimited tokens named by claim
C9. -/
def pySplitWs (s : String) : List String :=
  ((s.toList.splitOnP isPySpace).filter (fun p => p ≠ [])).map String.mk

/-- The payer as claim C9 states it: the first whitespace-delimited token
of the description, or Unknown when the description is empty, entirely
whitespace, or not a string. -/
def payerClaim (c : Cell) : String :=
  match c with
  | .str s =>
      if stripList s.toList = [] then "Unknown"
      else (pySplitWs s).headD "Unknown"
  | _ => "Unknown"

/-- The payer as amended: the first piece of the stripped description
split on the single space character (not on general whitespace), or
Unknown when the description is blank or not a string. -/
def payerAmended (c : Cell) : String :=
  match c with
  | .str s =>
      if stripList s.toList = [] then "Unknown"
      else String.mk (((stripList s.toList).splitOn ' ').headD [])
  | _ => "Unknown"

/-- A cell that is not a string, or whose stripped text is empty. -/
def blankOrNonStr (c : Cell) : Bool :=
  match c with
  | .str s => (stripList s.toList).isEmpty
  | _ => true

/-- Keep the first entry for each distinct dedupe key — the deduplication
policy in the words of the spec. -/
def specKeepFirst : List Entry → List Entry
| [] => []
| e :: es =>
    e :: specKeepFirst (es.filter (fun x => dedupeKeyOf x ≠ dedupeKeyOf e))
termination_by l => l.length
decreasing_by
  exact Nat.lt_succ_of_le (List.length_filter_le _ _)

/-! ### Concrete tables and entries used by counterexamples and
witnesses. -/

/-- A table with a recognizable date column and nothing else. -/
def tblDateOnly : Table :=
  ⟨["Date"], [[Cell.str "2026-02-01"]]⟩

/-- A table with the three required columns, one good row and one row
whose date does not parse. -/
def tblMixed : Table :=
  ⟨["Date", "Description", "Credits"],
   [[Cell.str "2026-02-01", Cell.str "alice chat", Cell.str "5"],
    [Cell.str "not-a-date", Cell.str "bob chat", Cell.str "7"]]⟩

/-- A table whose Credits cell parses to a negative number. -/
def tblNeg : Table :=
  ⟨["Date", "Description", "Credits"],
   [[Cell.str "2026-02-01", Cell.str "alice chat", Cell.str "-5"]]⟩

/-- The entry normalization produces from `tblNeg`. -/
def entryNeg : Entry :=
  ⟨Cell.str "2026-02-01", Cell.str "alice chat", Cell.str "-5", none,
   ⟨2026, 2, 1, 0, 0, 0⟩, -5, "alice", "Chat"⟩

/-- A table with a Date column and an Amount column but no Credits and no
Debits column — the shape claim C4 says is split into Credits and
Debits. -/
def tblAmount : Table :=
  ⟨["Date", "Description", "Amount"],
   [[Cell.str "2026-02-01", Cell.str "alice chat", Cell.str "-20.00"]]⟩

/-- An entry whose raw Credits cell reads 1 — its key keeps the raw text,
not a two-decimal rendering. -/
def entryRawKey : Entry :=
  ⟨Cell.str "2026-02-01", Cell.str "x", Cell.str "1", none,
   ⟨2026, 2, 1, 0, 0, 0⟩, 1, "x", "Other"⟩

/-- Two payers, first encountered in the order alice then bob, with equal
totals. -/
def tblTie : Table :=
  ⟨["Date", "Description", "Credits"],
   [[Cell.str "2026-02-01", Cell.str "alice chat", Cell.str "5"],
    [Cell.str "2026-02-01", Cell.str "bob chat", Cell.str "5"]]⟩

/-- The first entry normalization produces from `tblTie`. -/
def entryAlice : Entry :=
  ⟨Cell.str "2026-02-01", Cell.str "alice chat", Cell.str "5", none,
   ⟨2026, 2, 1, 0, 0, 0⟩, 5, "alice", "Chat"⟩

/-- The second entry normalization produces from `tblTie`. -/
def entryBob : Entry :=
  ⟨Cell.str "2026-02-01", Cell.str "bob chat", Cell.str "5", none,
   ⟨2026, 2, 1, 0, 0, 0⟩, 5, "bob", "Chat"⟩

/-- A table whose single Credits cell does not parse, so the global total
is zero. -/
def tblZero : Table :=
  ⟨["Date", "Description", "Credits"],
   [[Cell.str "2026-02-01", Cell.str "x gift", Cell.str "abc"]]⟩

/-- The entry normalization produces from `tblZero`. -/
def entryZero : Entry :=
  ⟨Cell.str "2026-02-01", Cell.str "x gift", Cell.str "abc", none,
   ⟨2026, 2, 1, 0, 0, 0⟩, 0, "x", "Gifts"⟩

/-! ### Lemmas about deduplication -/

theorem dropDupsFrom_sublist (seen : List String) (l : List Entry) :
    (dropDupsFrom seen l).Sublist l := by
  induction l generalizing seen with
  | nil => simp [dropDupsFrom]
  | cons e es ih =>
      by_cases h : dedupeKeyOf e ∈ seen
      · simp only [dropDupsFrom, if_pos h]
        exact (ih seen).cons e
      · simp only [dropDupsFrom, if_neg h]
        exact (ih _).cons₂ e

theorem dropDupsFrom_keys_notin (seen : List String) (l : List Entry) :
    ∀ e ∈ dropDupsFrom seen l, dedupeKeyOf e ∉ seen := by
  induction l generalizing seen with
  | nil => simp [dropDupsFrom]
  | cons e es ih =>
      by_cases h : dedupeKeyOf e ∈ seen
      · simp only [dropDupsFrom, if_pos h]
        exact ih seen
      · simp only [dropDupsFrom, if_neg h]
        intro x hx
        rcases List.mem_cons.mp hx with hx | hx
        · subst hx; exact h
        · intro hc
          exact ih (dedupeKeyOf e :: seen) x hx (List.mem_cons_of_mem _ hc)

theorem dropDupsFrom_keys_nodup (seen : List String) (l : List Entry) :
    (dropDupsFrom seen l).Pairwise (fun a b => dedupeKeyOf a ≠ dedupeKeyOf b) := by
  induction l generalizing seen with
  | nil => simp [dropDupsFrom]
  | cons e es ih =>
      by_cases h : dedupeKeyOf e ∈ seen
      · simpa only [dropDupsFrom, if_pos h] using ih seen
      · simp only [dropDupsFrom, if_neg h]
        refine List.Pairwise.cons ?_ (ih _)
        intro b hb hc
        exact dropDupsFrom_keys_notin (dedupeKeyOf e :: seen) es b hb
          (by rw [← hc]; exact List.mem_cons_self _ _)

theorem dropDupsFrom_of_nodup (seen : List String) (l : List Entry)
    (hnd : l.Pairwise (fun a b => dedupeKeyOf a ≠ dedupeKeyOf b))
    (hs : ∀ e ∈ l, dedupeKeyOf e ∉ seen) :
    dropDupsFrom seen l = l := by
  induction l generalizing seen with
  | nil => simp [dropDupsFrom]
  | cons e es ih =>
      have h : dedupeKeyOf e ∉ seen := hs e (List.mem_cons_self _ _)
      simp only [dropDupsFrom, if_neg h]
      congr 1
      refine ih (dedupeKeyOf e :: seen) (List.Pairwise.of_cons hnd) ?_
      intro x hx hc
      rcases List.mem_cons.mp hc with hc | hc
      · exact (List.pairwise_cons.mp hnd).1 x hx hc.symm
      · exact hs x (List.mem_cons_of_mem _ hx) hc

theorem dropDupsFrom_eq_specKeepFirst (seen : List String) (l : List Entry) :
    dropDupsFrom seen l =
      specKeepFirst (l.filter (fun e => decide (dedupeKeyOf e ∉ seen))) := by
  induction l generalizing seen with
  | nil => simp [dropDupsFrom, specKeepFirst]
  | cons e es ih =>
      by_cases h : dedupeKeyOf e ∈ seen
      · have hf : (decide (dedupeKeyOf e ∉ seen)) = false := by simp [h]
        rw [List.filter_cons]
        simp only [dropDupsFrom, if_pos h, hf, Bool.false_eq_true, if_false]
        exact ih seen
      · have hf : (decide (dedupeKeyOf e ∉ seen)) = true := by simp [h]
        rw [List.filter_cons]
        simp only [dropDupsFrom, if_neg h, hf, if_true]
        rw [show ∀ a l', specKeepFirst (a :: l') =
              a :: specKeepFirst (l'.filter (fun x => dedupeKeyOf x ≠ dedupeKeyOf a))
            from fun a l' => by rw [specKeepFirst]]
        rw [ih (dedupeKeyOf e :: seen)]
        refine congrArg (fun z => e :: specKeepFirst z) ?_
        rw [List.filter_filter]
        refine List.filter_congr ?_
        intro x _
        by_cases h1 : dedupeKeyOf x = dedupeKeyOf e <;>
          by_cases h2 : dedupeKeyOf x ∈ seen <;>
            simp [h1, h2, List.mem_cons]

/-! ### Lemmas about grouping and sums -/

theorem sum_filter_split (u : String) (l : List Entry) :
    ((l.filter (fun e => decide (e.user = u))).map Entry.amount).sum +
      ((l.filter (fun e => decide (¬ e.user = u))).map Entry.amount).sum =
    (l.map Entry.amount).sum := by
  induction l with
  | nil => simp
  | cons e es ih =>
      by_cases h : e.user = u
      · simp only [List.filter_cons, h, decide_eq_true_eq, if_pos, List.map_cons,
          List.sum_cons, not_true_eq_false]
        simp only [decide_not, h, decide_eq_true_eq]
        simp [← ih, add_assoc]
      · simp only [List.filter_cons, decide_not, h]
        simp [← ih, h, add_left_comm]

theorem sum_group (us : List String) (l : List Entry)
    (hnd : us.Nodup) (hcov : ∀ e ∈ l, e.user ∈ us) :
    (us.map
      (fun u => ((l.filter (fun e => e.user = u)).map Entry.amount).sum)).sum =
      (l.map Entry.amount).sum := by
  induction us generalizing l with
  | nil =>
      cases l with
      | nil => simp
      | cons e es => exact absurd (hcov e (List.mem_cons_self _ _)) (List.not_mem_nil _)
  | cons u us ih =>
      have hnd' : us.Nodup := hnd.of_cons
      have hu : u ∉ us := (List.nodup_cons.mp hnd).1
      rw [List.map_cons, List.sum_cons]
      have htail :
          (us.map
            (fun v => ((l.filter (fun e => e.user = v)).map Entry.amount).sum)).sum =
          (us.map
            (fun v =>
              (((l.filter (fun e => decide (¬ e.user = u))).filter
                  (fun e => e.user = v)).map Entry.amount).sum)).sum := by
        refine congrArg List.sum (List.map_congr_left ?_)
        intro v hv
        have hvu : v ≠ u := fun hc => hu (hc ▸ hv)
        refine congrArg (fun z => (List.map Entry.amount z).sum) ?_
        rw [List.filter_filter]
        refine (List.filter_congr ?_).symm
        intro x _
        by_cases hx : x.user = v
        · simp [hx, hvu]
        · simp [hx]
      rw [htail, ih (l.filter (fun e => decide (¬ e.user = u))) hnd' ?_]
      · exact sum_filter_split u l
      · intro e he
        have h1 := List.of_mem_filter he
        have h2 := hcov e (List.mem_of_mem_filter he)
        rcases List.mem_cons.mp h2 with h2 | h2
        · exact absurd h2 (by simpa using h1)
        · exact h2

/-! ### Lemmas about row counting -/

theorem length_filterMap_eq_countP {α β : Type} (f : α → Option β) (l : List α) :
    (l.filterMap f).length = l.countP (fun a => (f a).isSome) := by
  induction l with
  | nil => simp
  | cons a l ih =>
      cases h : f a <;>
        simp [List.filterMap_cons, h, ih, List.countP_cons]

theorem rowEntry_isSome (t : Table) (r : List Cell) :
    (rowEntry t r).isSome = (toDatetime (cellAt r (colIdx t "Date"))).isSome := by
  unfold rowEntry
  cases h : toDatetime (cellAt r (colIdx t "Date")) <;> simp [h]

/-! ### Lemmas about whitespace stripping -/

theorem dropWhile_spaces (sp : List Char) (h : ∀ c ∈ sp, isPySpace c = true) :
    sp.dropWhile isPySpace = [] :=
  List.dropWhile_eq_nil_iff.mpr h

theorem stripList_cons_sp (c : Char) (l : List Char) (h : isPySpace c = true) :
    stripList (c :: l) = stripList l := by
  simp [stripList, List.dropWhile_cons, h]

theorem stripList_append_sp (l sp : List Char) (h : ∀ c ∈ sp, isPySpace c = true) :
    stripList (l ++ sp) = stripList l := by
  unfold stripList
  rw [List.dropWhile_append]
  by_cases hd : (l.dropWhile isPySpace).isEmpty
  · rw [if_pos hd, dropWhile_spaces sp h]
    rw [List.isEmpty_iff.mp hd]
  · rw [if_neg hd, List.reverse_append, List.dropWhile_append]
    rw [dropWhile_spaces sp.reverse (by intro c hc; exact h c (List.mem_reverse.mp hc))]
    simp

/-! ### Claim C1 — the schema gate -/

/-- Claim C1, counterexample: a table whose only column is the
recognizable date column Date is rejected by normalization, although the
claim says a run fails only when no recognizable date column exists. -/
theorem c1_gate_cex :
    (normalize tblDateOnly).isOk = false ∧ "Date" ∈ tblDateOnly.cols := by
  refine ⟨by decide, by decide⟩

/-- Claim C1 (amended): normalization fails if and only if one of the
exact column names Date, Description, Credits is missing — not merely
when no date column exists.  When the gate passes, each row whose Date
cell fails to parse is dropped silently (the surviving entry count is the
count of rows with a parseable date), and no row-level error reaches the
caller. -/
theorem c1_gate (t : Table) :
    ((normalize t).isOk = requiredPresent t) ∧
    (requiredPresent t = true →
      ((normalize t).toOption.getD []).length =
        t.rows.countP (fun r => (toDatetime (cellAt r (colIdx t "Date"))).isSome)) := by
  constructor
  · unfold normalize
    cases h : requiredPresent t <;> simp [h, Except.isOk, Except.toBool]
  · intro h
    unfold normalize
    rw [if_pos h]
    show (t.rows.filterMap (rowEntry t)).length = _
    rw [length_filterMap_eq_countP]
    refine List.countP_congr ?_
    intro r _
    rw [rowEntry_isSome t r]

/-- Claim C1, witness: on a table with the required columns, one
parseable date and one unparseable date, the gate passes and exactly the
parseable row survives. -/
theorem c1_gate_witness :
    requiredPresent tblMixed = true ∧
    ((normalize tblMixed).toOption.getD []).length =
      tblMixed.rows.countP
        (fun r => (toDatetime (cellAt r (colIdx tblMixed "Date"))).isSome) :=
  ⟨by decide, (c1_gate tblMixed).2 (by decide)⟩

/-! ### Claim C2 — the money parser -/

/-- Claim C2, counterexample: the parenthesized value of the claim does
not parse as a negative — the parser leaves the parentheses in place, the
conversion fails, and the fallback zero is returned instead of the
claimed -12.34. -/
theorem c2_money_cex :
    money_to_float (Cell.str "(12.34)") ≠ (-1234 : ℚ) / 100 := by
  have h : money_to_float (Cell.str "(12.34)") = 0 := by decide
  rw [h]
  norm_num

/-- Claim C2 (amended): the money parser strips surrounding whitespace,
dollar signs and commas; missing, empty or otherwise unparseable input
(including parenthesized values, which are not recognized) yields exactly
zero, and the parser is total.  Concretely the dollar-and-comma example
parses to 1234.56, the parenthesized example to 0, the empty string and
non-numeric text to 0, and padding any input with whitespace never
changes the result. -/
theorem c2_money :
    money_to_float (Cell.str "$1,234.56") = 123456 / 100 ∧
    money_to_float (Cell.str "(12.34)") = 0 ∧
    money_to_float (Cell.str "") = 0 ∧
    money_to_float (Cell.str "abc") = 0 ∧
    money_to_float Cell.na = 0 ∧
    ∀ s : String, money_to_float (Cell.str (" \t " ++ s ++ " \t ")) =
      money_to_float (Cell.str s) := by
  refine ⟨?_, by decide, by decide, by decide, by decide, ?_⟩
  · have h : money_to_float (Cell.str "$1,234.56") =
        ((1234 : ℕ) : ℚ) + ((56 : ℕ) : ℚ) / (10 ^ 2 : ℚ) := rfl
    rw [h]
    norm_num
  · intro s
    have hto : (" \t " ++ s ++ " \t ").toList =
        ' ' :: '\t' :: ' ' :: (s.toList ++ [' ', '\t', ' ']) := rfl
    have key : stripList ((" \t " ++ s ++ " \t ").toList) = stripList s.toList := by
      rw [hto, stripList_cons_sp _ _ (by decide), stripList_cons_sp _ _ (by decide),
        stripList_cons_sp _ _ (by decide), stripList_append_sp _ _ (by decide)]
    simp only [money_to_float]
    rw [key]

/-! ### Claim C3 — sign of normalized amounts -/

/-- Claim C3, counterexample: a Credits cell holding -5 normalizes to the
negative amount -5, refuting the invariant that credits are always
non-negative (and no debit value is produced or constrained at all). -/
theorem c3_nonneg_cex :
    (pipelineEntries tblNeg).map Entry.amount = [-5] ∧ (-5 : ℚ) < 0 := by
  refine ⟨by decide, by norm_num⟩

/-- Claim C3 (amended): normalization imposes no sign constraint — the
amount of every produced entry is exactly the money parse of its raw
Credits cell, which is negative whenever that cell encodes a negative
number; the Debits column is never parsed into a value. -/
theorem c3_amount_eq_parse (t : Table) (es : List Entry)
    (h : normalize t = .ok es) :
    ∀ e ∈ es, e.amount = money_to_float e.creditsRaw := by
  unfold normalize at h
  by_cases hr : requiredPresent t
  · rw [if_pos hr] at h
    cases h
    intro e he
    rcases List.mem_filterMap.mp he with ⟨r, _, hre⟩
    simp only [rowEntry] at hre
    cases hd : toDatetime (cellAt r (colIdx t "Date")) <;> rw [hd] at hre
    · exact Option.noConfusion hre
    · cases hre
      rfl
  · rw [if_neg hr] at h
    cases h

/-- Claim C3, witness: applied to the table whose Credits cell reads -5,
the produced entry's amount is the money parse of that cell. -/
theorem c3_amount_eq_parse_witness :
    normalize tblNeg = .ok [entryNeg] ∧
    entryNeg.amount = money_to_float entryNeg.creditsRaw :=
  ⟨rfl, c3_amount_eq_parse tblNeg [entryNeg] rfl entryNeg (by decide)⟩

/-! ### Claim C4 — no Amount splitting -/

/-- Claim C4, counterexample: a table with Date and Amount columns but no
Credits and no Debits column is rejected outright — no splitting of
Amount into Credits and Debits takes place. -/
theorem c4_amount_split_cex :
    (normalize tblAmount).isOk = false ∧
    "Amount" ∈ tblAmount.cols ∧
    "Credits" ∉ tblAmount.cols ∧
    "Debits" ∉ tblAmount.cols := by
  refine ⟨by decide, by decide, by decide, by decide⟩

/-- Claim C4 (amended): there is no Amount handling at all — any table
lacking a column literally named Credits, whether or not an Amount column
is present, fails the schema gate with the missing-columns error. -/
theorem c4_no_amount_split (t : Table) (h : t.cols.contains "Credits" = false) :
    normalize t = .error .missingColumns := by
  unfold normalize requiredPresent
  rw [h]
  simp

/-- Claim C4, witness: the Amount-only table is rejected with the
missing-columns error. -/
theorem c4_no_amount_split_witness :
    normalize tblAmount = Except.error SchemaError.missingColumns :=
  c4_no_amount_split tblAmount (by decide)

/-! ### Claim C5 — the dedupe key -/

/-- Claim C5, counterexample: the key of a concrete entry is built from
the raw cell texts — the date is not rendered as a fixed-format timestamp
and the money values are not rounded to two decimals, so the key differs
from the one the claim describes. -/
theorem c5_key_cex :
    dedupeKeyOf entryRawKey ≠ specKeyClaim entryRawKey ∧
    dedupeKeyOf entryRawKey = "2026-02-01||x||1||" ∧
    specKeyClaim entryRawKey = "2026-02-01 00:00:00||x||1.00||0.00" := by
  refine ⟨by decide, by decide, by decide⟩

/-- Claim C5 (amended): the dedupe key is the concatenation of the raw
Date cell text, the description, the raw Credits cell text and the raw
Debits cell text (empty when that column is absent), joined by the
two-bar separator, with no timestamp formatting and no rounding; two
entries are identified as duplicates exactly when these raw key strings
are equal. -/
theorem c5_key :
    (∀ e : Entry, dedupeKeyOf e = specKeyAmended e) ∧
    (∀ e1 e2 : Entry, drop_duplicates [e1, e2] =
      if dedupeKeyOf e1 = dedupeKeyOf e2 then [e1] else [e1, e2]) := by
  refine ⟨fun e => rfl, ?_⟩
  intro e1 e2
  by_cases h : dedupeKeyOf e1 = dedupeKeyOf e2
  · simp [drop_duplicates, dropDupsFrom, h]
  · simp [drop_duplicates, dropDupsFrom, h, Ne.symm h]

/-! ### Claim C6 — deduplication -/

/-- Claim C6: deduplication retains exactly the first entry for each
distinct key (it equals the keep-first recursion), preserves the relative
order of survivors (the result is a sublist of the input), is idempotent,
and never increases the row count. -/
theorem c6_dedupe (l : List Entry) :
    drop_duplicates l = specKeepFirst l ∧
    (drop_duplicates l).Sublist l ∧
    drop_duplicates (drop_duplicates l) = drop_duplicates l ∧
    (drop_duplicates l).length ≤ l.length := by
  refine ⟨?_, dropDupsFrom_sublist [] l, ?_, (dropDupsFrom_sublist [] l).length_le⟩
  · rw [drop_duplicates, dropDupsFrom_eq_specKeepFirst]
    refine congrArg specKeepFirst ?_
    simp
  · exact dropDupsFrom_of_nodup [] _ (dropDupsFrom_keys_nodup [] l) (by simp)

/-! ### Claim C7 — ranking -/

/-- Claim C7, counterexample: two payers with equal totals, first
encountered in the order alice then bob, are ranked bob first — the
grouping orders keys alphabetically and the descending sort reverses the
tied pair, so ties do not keep first-encountered order. -/
theorem c7_ranking_cex :
    (pipelineEntries tblTie).map Entry.user = ["alice", "bob"] ∧
    whales (pipelineEntries tblTie) = [("bob", 5), ("alice", 5)] := by
  constructor
  · decide
  · have hpe : pipelineEntries tblTie = [entryAlice, entryBob] := by decide
    have h0 : groupTotals [entryAlice, entryBob] =
        [("alice", ([(5 : ℚ)]).sum), ("bob", ([(5 : ℚ)]).sum)] := rfl
    have h : groupTotals [entryAlice, entryBob] = [("alice", (5 : ℚ)), ("bob", 5)] := by
      rw [h0]; simp
    rw [hpe]
    unfold whales
    rw [h]
    norm_num [List.insertionSort, List.orderedInsert]

/-- Claim C7 (amended): the ranking is sorted by descending total (every
earlier ranked payer has a total at least that of every later one), the
sum of the ranked per-payer totals equals the global total exactly, and
the displayed ranks are the 1-based positions 1, 2, 3, …; the tie order,
however, is an artifact of reversing a stable ascending sort of the
alphabetically ordered groups — not the first-encountered group order. -/
theorem c7_ranking (l : List Entry) :
    (whales l).Pairwise (fun a b => b.2 ≤ a.2) ∧
    ((whales l).map Prod.snd).sum = totalOf l ∧
    (rankedPayers l).map Prod.fst = List.range' 1 (top10 l).length := by
  haveI hT : IsTotal (String × ℚ) (fun a b => a.2 ≤ b.2) :=
    ⟨fun a b => le_total a.2 b.2⟩
  haveI hTr : IsTrans (String × ℚ) (fun a b => a.2 ≤ b.2) :=
    ⟨fun a b c hab hbc => le_trans hab hbc⟩
  refine ⟨?_, ?_, ?_⟩
  · exact List.pairwise_reverse.mpr
      (List.sorted_insertionSort (fun a b : String × ℚ => a.2 ≤ b.2) (groupTotals l))
  · have h1 : ((whales l).map Prod.snd).sum = ((groupTotals l).map Prod.snd).sum :=
      List.Perm.sum_eq (List.Perm.map Prod.snd
        ((List.reverse_perm _).trans
          (List.perm_insertionSort (fun a b : String × ℚ => a.2 ≤ b.2) (groupTotals l))))
    have h2 : ((groupTotals l).map Prod.snd).sum =
        ((List.insertionSort (fun a b => strLeb a b = true) (usersOf l)).map
          (fun u => ((l.filter (fun e => e.user = u)).map Entry.amount).sum)).sum := by
      rw [groupTotals, List.map_map]
      rfl
    have h3 :
        ((List.insertionSort (fun a b => strLeb a b = true) (usersOf l)).map
          (fun u => ((l.filter (fun e => e.user = u)).map Entry.amount).sum)).sum =
        ((usersOf l).map
          (fun u => ((l.filter (fun e => e.user = u)).map Entry.amount).sum)).sum :=
      List.Perm.sum_eq (List.Perm.map _
        (List.perm_insertionSort (fun a b => strLeb a b = true) (usersOf l)))
    have h4 := sum_group (usersOf l) l (List.nodup_dedup _)
      (fun e he => List.mem_dedup.mpr (List.mem_map_of_mem Entry.user he))
    rw [h1, h2, h3, h4]
    rfl
  · rw [rankedPayers]
    rw [List.map_map]
    rw [show (Prod.fst ∘ fun p : ℕ × (String × ℚ) => (p.1 + 1, p.2)) =
          ((fun n => n + 1) ∘ Prod.fst) from rfl]
    rw [← List.map_map, List.enum_map_fst, List.range'_eq_map_range]
    exact List.map_congr_left (fun a _ => Nat.add_comm a 1)

/-! ### Claim C8 — the Top 3 Share KPI -/

/-- Claim C8: on a zero-total ledger the displayed Top 3 Share is the
unguarded quotient, a non-finite value rather than the claimed zero,
while the guarded value computed on the line before (and never used)
is exactly zero. -/
theorem c8_topshare_bug :
    totalOf (pipelineEntries tblZero) = 0 ∧
    sharePct (pipelineEntries tblZero) = none ∧
    k4_value (pipelineEntries tblZero) = some 0 := by
  have hpe : pipelineEntries tblZero = [entryZero] := by decide
  have ht : totalOf [entryZero] = 0 := by
    have h0 : totalOf [entryZero] = ([(0 : ℚ)]).sum := rfl
    rw [h0]; simp
  rw [hpe]
  refine ⟨ht, ?_, ?_⟩
  · unfold sharePct
    rw [ht]
    simp
  · unfold k4_value
    rw [ht]
    simp

/-! ### Claim C9 — payer extraction -/

/-- Claim C9, counterexample: a description whose first whitespace is a
tab is not split — the extracted payer keeps the tab and the following
word, instead of the first whitespace-delimited token. -/
theorem c9_payer_cex :
    extract_user (Cell.str "a\tb") = "a\tb" ∧
    payerClaim (Cell.str "a\tb") = "a" ∧
    ("a\tb" : String) ≠ "a" := by
  refine ⟨by decide, by decide, by decide⟩

/-- Claim C9 (amended): the payer is the first piece of the stripped
description split on the single space character (not on general
whitespace), and Unknown exactly when the description is not a string or
strips to the empty string. -/
theorem c9_payer (c : Cell) : extract_user c = payerAmended c := by
  cases c <;> rfl

/-! ### Claim C10 — totality of attribution -/

/-- Claim C10: attribution is total over arbitrary cells — every
non-string or blank cell is attributed to Unknown, and classification
always returns one of the four categories; both functions are total by
construction, so neither can raise. -/
theorem c10_total (c : Cell) :
    (blankOrNonStr c = true → extract_user c = "Unknown") ∧
    (classify_type c = "Chat" ∨ classify_type c = "Video" ∨
      classify_type c = "Gifts" ∨ classify_type c = "Other") := by
  constructor
  · intro h
    cases c with
    | str s =>
        simp only [blankOrNonStr] at h
        simp only [extract_user]
        rw [if_pos (List.isEmpty_iff.mp h)]
    | num q => rfl
    | na => rfl
  · unfold classify_type
    dsimp only
    split
    · right; left; rfl
    · split
      · right; right; left; rfl
      · split
        · left; rfl
        · right; right; right; rfl

/-- Claim C10, witness: the missing value is attributed to Unknown and
classified into one of the four categories. -/
theorem c10_total_witness :
    extract_user Cell.na = "Unknown" ∧
    (classify_type Cell.na = "Chat" ∨ classify_type Cell.na = "Video" ∨
      classify_type Cell.na = "Gifts" ∨ classify_type Cell.na = "Other") :=
  ⟨(c10_total Cell.na).1 (by decide), (c10_total Cell.na).2⟩

end Whaler
